import Mathlib

/-!
Verification of coinbase/mesh-ethereum (rosetta-ethereum) core algorithms:
a shallow embedding in Lean 4 of the trace flattener and operation
synthesizer, the fee calculator, the batched receipt fetch, the
transaction fetch receipt handling, the trace JSON decoder, and the
construction (payloads / combine / parse) pipeline, together with proofs
of the specified properties.

Conventions of the embedding:
* Go `*big.Int` values are `Int` (or `Option Int` where the nil pointer is
  significant).
* Go `common.Address` (20 bytes) is `Address`, a wrapper around its
  160-bit value.  `Address.String()` / `.Hex()` render the canonical
  EIP-55 checksummed hex form; since that rendering is injective, the
  embedding identifies the canonical rendering with the address itself,
  and `MustChecksum` applied to such a rendering is the identity.
* Fallible Go functions return `Except`/`Option`; `log.Fatalf` (process
  abort) is modelled by returning `none`.
-/

namespace Mesh

/-- A 20-byte Ethereum account address (`common.Address`), identified by
its 160-bit numeric value. -/
structure Address where
  val : Nat
deriving DecidableEq, Repr

/-- Rendering of `common.Address.String()` (only its non-emptiness matters
to the code under verification: traceOps checks `len(trace.To.String())`). -/
def Address.str (a : Address) : String :=
  "0x" ++ toString a.val

theorem Address.str_ne_empty (a : Address) : (Address.str a).length ≠ 0 := by
  have h : ("0x").length = 2 := rfl
  simp only [Address.str, String.length_append, h]
  omega

/-! Operation/status constants from `ethereum/types.go`. -/

def MinerRewardOpType : String := "MINER_REWARD"

def UncleRewardOpType : String := "UNCLE_REWARD"

def FeeOpType : String := "FEE"

def CallOpType : String := "CALL"

def CreateOpType : String := "CREATE"

def Create2OpType : String := "CREATE2"

def SelfDestructOpType : String := "SELFDESTRUCT"

def CallCodeOpType : String := "CALLCODE"

def DelegateCallOpType : String := "DELEGATECALL"

def StaticCallOpType : String := "STATICCALL"

def DestructOpType : String := "DESTRUCT"

def SuccessStatus : String := "SUCCESS"

def FailureStatus : String := "FAILURE"

def TransferGasLimit : Nat := 21000

/-- `CallType` from `ethereum/types.go`: membership in the call-family
operation types. -/
def CallType (t : String) : Bool :=
  [CallOpType, CallCodeOpType, DelegateCallOpType, StaticCallOpType].contains t

/-- `CreateType` from `ethereum/types.go`. -/
def CreateType (t : String) : Bool :=
  [CreateOpType, Create2OpType].contains t

/-- A Rosetta operation as this repository constructs it: identifier
index, related-operation indices, type, status, account address (always a
checksummed rendering, i.e. an `Address`), optional amount value (the
currency is the constant ETH currency everywhere, so it is omitted), and
the optional `metadata["error"]` entry that is set for reverted traces. -/
structure Operation where
  index : Int
  related : List Int
  opType : String
  status : Option String
  account : Address
  amount : Option Int
  metaErr : Option String
deriving DecidableEq, Repr

/-! ## Fee and gas calculation (`ethereum/client.go`) -/

/-- `eip1559TxType` from `ethereum/client.go`. -/
def eip1559TxType : Nat := 2

/-- The fields of a go-ethereum `types.Transaction` that the fee
calculation reads.  For a legacy transaction `GasPrice()` returns the
specified gas price; `GasTipCap`/`GasFeeCap` are only consulted for
EIP-1559 transactions. -/
structure EthTx where
  txType : Nat
  gasPrice : Int
  gasTipCap : Int
  gasFeeCap : Int
deriving DecidableEq, Repr

inductive FeeErr
  /-- go-ethereum `ErrGasFeeCapTooLow`, surfaced by `EffectiveGasTip`. -/
  | gasFeeCapTooLow
  /-- `effectiveGasPrice` adds the tip to a nil base fee: a nil-pointer
  `big.Int` addition (Go would panic). -/
  | nilBaseFee
deriving DecidableEq, Repr

/-- go-ethereum `Transaction.EffectiveGasTip` (external library, modelled
from its source): with no base fee the tip cap, otherwise
`min(gasTipCap, gasFeeCap - baseFee)`, failing when the fee cap is below
the base fee. -/
def EffectiveGasTip (tx : EthTx) (baseFee : Option Int) : Except FeeErr Int :=
  match baseFee with
  | none => .ok tx.gasTipCap
  | some b =>
    if tx.gasFeeCap < b then .error .gasFeeCapTooLow
    else .ok (min (tx.gasFeeCap - b) tx.gasTipCap)

/-- `effectiveGasPrice` from `ethereum/client.go`: legacy transactions use
their own gas price; EIP-1559 transactions use tip + base fee. -/
def effectiveGasPrice (tx : EthTx) (baseFee : Option Int) : Except FeeErr Int :=
  if tx.txType ≠ eip1559TxType then .ok tx.gasPrice
  else
    match EffectiveGasTip tx baseFee with
    | .error e => .error e
    | .ok tip =>
      match baseFee with
      | none => .error .nilBaseFee
      | some b => .ok (tip + b)

/-- `calculateGas` from `ethereum/client.go`: the fee amount is
`gasUsed × effectiveGasPrice`; the burned portion, present exactly when
the block has a base fee, is `gasUsed × baseFee`. -/
def calculateGas (tx : EthTx) (gasUsed : Nat) (baseFee : Option Int) :
    Except FeeErr (Int × Option Int) :=
  match effectiveGasPrice tx baseFee with
  | .error e => .error e
  | .ok gasPrice =>
    .ok ((gasUsed : Int) * gasPrice, baseFee.map (fun b => (gasUsed : Int) * b))

/-- The fields of `loadedTransaction` that `feeOps` reads.  `From` and
`Miner` are stored as canonical address renderings, so the
`MustChecksum` calls in `feeOps` are the identity. -/
structure LoadedTransaction where
  From : Address
  Miner : Address
  FeeAmount : Int
  FeeBurned : Option Int
deriving DecidableEq, Repr

/-- `feeOps` from `ethereum/client.go`: operation 0 debits the sender by
the miner-earned amount, operation 1 credits the miner, and, when a burn
happened, operation 2 debits the sender by the burned amount. -/
def feeOps (tx : LoadedTransaction) : List Operation :=
  let minerEarnedAmount : Int :=
    match tx.FeeBurned with
    | none => tx.FeeAmount
    | some b => tx.FeeAmount - b
  let ops : List Operation :=
    [ { index := 0, related := [], opType := FeeOpType, status := some SuccessStatus,
        account := tx.From, amount := some (-minerEarnedAmount), metaErr := none },
      { index := 1, related := [0], opType := FeeOpType, status := some SuccessStatus,
        account := tx.Miner, amount := some minerEarnedAmount, metaErr := none } ]
  match tx.FeeBurned with
  | none => ops
  | some b =>
    ops ++ [ { index := 2, related := [], opType := FeeOpType, status := some SuccessStatus,
               account := tx.From, amount := some (-b), metaErr := none } ]

/-! ## Call traces and flattening (`ethereum/client.go`) -/

/-- `Call`, an Ethereum debug trace node (`ethereum/client.go`).  After
JSON decoding, `Value` is never nil (so it is an `Int`) while `GasUsed`
can be nil (so it is an `Option Int`); `Revert` is set from the error
message.  Field renames forced by Lean keywords: `Type` is `typ`,
`From`/`To` keep their Go capitalisation. -/
inductive Call where
  | mk (typ : String) (From : Address) (To : Address) (value : Int)
       (gasUsed : Option Int) (revert : Bool) (errorMessage : String)
       (calls : List Call)
deriving Repr

def Call.typ : Call → String
  | .mk t _ _ _ _ _ _ _ => t

def Call.From : Call → Address
  | .mk _ f _ _ _ _ _ _ => f

def Call.To : Call → Address
  | .mk _ _ t _ _ _ _ _ => t

def Call.value : Call → Int
  | .mk _ _ _ v _ _ _ _ => v

def Call.gasUsed : Call → Option Int
  | .mk _ _ _ _ g _ _ _ => g

def Call.revert : Call → Bool
  | .mk _ _ _ _ _ r _ _ => r

def Call.errorMessage : Call → String
  | .mk _ _ _ _ _ _ e _ => e

def Call.calls : Call → List Call
  | .mk _ _ _ _ _ _ _ cs => cs

/-- `flatCall` (`ethereum/client.go`): one flattened trace entry. -/
structure FlatCall where
  typ : String
  From : Address
  To : Address
  value : Int
  gasUsed : Option Int
  revert : Bool
  errorMessage : String
deriving DecidableEq, Repr

/-- `Call.flatten`: the per-node projection. -/
def Call.flatten : Call → FlatCall
  | .mk t f t2 v g r e _ => ⟨t, f, t2, v, g, r, e⟩

mutual

/-- Node count of a call-trace tree (the `N` of the flattening claim). -/
def Call.size : Call → Nat
  | .mk _ _ _ _ _ _ _ cs => 1 + sizeList cs

/-- Total node count of a list of call-trace trees. -/
def sizeList : List Call → Nat
  | [] => 0
  | c :: cs => c.size + sizeList cs

end

theorem Call.size_pos (c : Call) : 0 < c.size := by
  cases c with
  | mk t f t2 v g r e cs =>
    simp only [Call.size]
    omega

/-- The in-place mutation `flattenTraces` performs on a child of a
reverted parent before recursing: the child inherits the revert flag and,
when its own error message is empty, the parent's error message. -/
def propagate (parentRevert : Bool) (parentMsg : String) (c : Call) : Call :=
  match c with
  | .mk t f t2 v g r e cs =>
    if parentRevert then
      .mk t f t2 v g true (if e = "" then parentMsg else e) cs
    else
      .mk t f t2 v g r e cs

theorem propagate_size (pr : Bool) (pm : String) (c : Call) :
    (propagate pr pm c).size = c.size := by
  cases c with
  | mk t f t2 v g r e cs =>
    simp only [propagate]
    split <;> simp [Call.size]

mutual

/-- `flattenTraces` from `ethereum/client.go`, transcribed with the Go
slice semantics kept intact: the recursive call on each child passes the
*original* accumulator `flattened` (not the results built so far), so the
result duplicates `flattened` once per child; with an empty accumulator —
the only call site, `populateTransaction` — this is a depth-first
pre-order flattening. -/
def flattenTraces (data : Call) (flattened : List FlatCall) : List FlatCall :=
  match data with
  | .mk t f t2 v g r e cs =>
    flattenLoop r e cs flattened (flattened ++ [Call.flatten (.mk t f t2 v g r e cs)])
termination_by 2 * data.size
decreasing_by
  simp only [Call.size]
  omega

/-- The `for _, child := range data.Calls` loop body of `flattenTraces`. -/
def flattenLoop (parentRevert : Bool) (parentMsg : String) (children : List Call)
    (flattened : List FlatCall) (results : List FlatCall) : List FlatCall :=
  match children with
  | [] => results
  | c :: cs =>
    flattenLoop parentRevert parentMsg cs flattened
      (results ++ flattenTraces (propagate parentRevert parentMsg c) flattened)
termination_by 2 * sizeList children + 1
decreasing_by
  · simp only [sizeList, propagate_size]
    have := Call.size_pos c
    omega
  · simp only [sizeList]
    have := Call.size_pos c
    omega

end

/-! ## Operation synthesis: `traceOps` (`ethereum/client.go`)

The Go `destroyedAccounts map[string]*big.Int` is embedded as an
association list with in-place update, so one entry per key; the final
`range` iterates in insertion order (Go's map iteration order is
unspecified — the claims proved below do not depend on it). -/

abbrev DMap := List (Address × Int)

def dmapGet (m : DMap) (k : Address) : Option Int :=
  (m.find? (fun e => e.1 = k)).map (·.2)

def dmapSet (m : DMap) (k : Address) (v : Int) : DMap :=
  if (dmapGet m k).isSome then
    m.map (fun e => if e.1 = k then (k, v) else e)
  else
    m ++ [(k, v)]

def dmapDel (m : DMap) (k : Address) : DMap :=
  m.filter (fun e => ¬(e.1 = k))

/-- The loop state of `traceOps`: the operations emitted so far and the
destroyed-accounts ledger. -/
structure TState where
  ops : List Operation
  destroyed : DMap
deriving DecidableEq, Repr

/-- One iteration of the `for _, trace := range calls` loop of `traceOps`
(`ethereum/client.go:745-860`), transcribed branch by branch.  The
`MustChecksum(trace.From.String())` / `MustChecksum(trace.To.String())`
calls are the identity on canonical renderings, so `from`/`to` are the
trace's addresses themselves. -/
def traceStep (startIndex : Int) (st : TState) (trace : FlatCall) : TState :=
  let opStatus : String := if trace.revert then FailureStatus else SuccessStatus
  let metaErr : Option String := if trace.revert then some trace.errorMessage else none
  let zeroValue : Bool := trace.value = 0
  let shouldAdd : Bool := !(zeroValue && CallType trace.typ)
  let fr : Address := trace.From
  let toA : Address := trace.To
  -- emit the "from" operation
  let st1 : TState :=
    if shouldAdd then
      let fromAmt : Option Int := if zeroValue then none else some (-trace.value)
      let d1 : DMap :=
        if zeroValue then st.destroyed
        else if (dmapGet st.destroyed fr).isSome ∧ opStatus = SuccessStatus then
          dmapSet st.destroyed fr (((dmapGet st.destroyed fr).getD 0) - trace.value)
        else st.destroyed
      { ops := st.ops ++
          [ { index := (st.ops.length : Int) + startIndex, related := [],
              opType := trace.typ, status := some opStatus, account := fr,
              amount := fromAmt, metaErr := metaErr } ],
        destroyed := d1 }
    else st
  -- SELFDESTRUCT: mark the source destroyed (delta overwritten with zero)
  let d2 : DMap :=
    if trace.typ = SelfDestructOpType then dmapSet st1.destroyed fr 0 else st1.destroyed
  if trace.typ = SelfDestructOpType ∧ fr = toA then
    -- destination is self: skip the "to" half (continue)
    { ops := st1.ops, destroyed := d2 }
  else if (Address.str toA).length = 0 then
    -- sanity check on empty to-addresses (unreachable: renderings are nonempty)
    { ops := st1.ops, destroyed := d2 }
  else
    -- CREATE/CREATE2 resurrects the destination
    let d3 : DMap := if CreateType trace.typ then dmapDel d2 toA else d2
    if shouldAdd then
      -- `ops[len(ops)-1]` (nonempty here since the "from" op was emitted;
      -- the default is never used)
      let lastOpIndex : Int := ((st1.ops.getLast?).map (·.index)).getD (startIndex - 1)
      let toAmt : Option Int := if zeroValue then none else some trace.value
      let d4 : DMap :=
        if zeroValue then d3
        else if (dmapGet d3 toA).isSome ∧ opStatus = SuccessStatus then
          dmapSet d3 toA (((dmapGet d3 toA).getD 0) + trace.value)
        else d3
      { ops := st1.ops ++
          [ { index := lastOpIndex + 1, related := [lastOpIndex],
              opType := trace.typ, status := some opStatus, account := toA,
              amount := toAmt, metaErr := metaErr } ],
        destroyed := d4 }
    else
      { ops := st1.ops, destroyed := d3 }

/-- The finalization loop of `traceOps`: append one synthetic DESTRUCT
operation per destroyed account with a non-zero remaining delta; a
negative delta hits `log.Fatalf` (modelled as `none`). -/
def destructLoop (ops : List Operation) (entries : DMap) : Option (List Operation) :=
  match entries with
  | [] => some ops
  | (acct, val) :: rest =>
    if val = 0 then destructLoop ops rest
    else if val < 0 then none
    else
      destructLoop
        (ops ++ [ { index := ((ops.getLast?).map (·.index)).getD (-1) + 1, related := [],
                    opType := DestructOpType, status := some SuccessStatus,
                    account := acct, amount := some (-val), metaErr := none } ])
        rest

/-- `traceOps` from `ethereum/client.go`: synthesize the operation list of
one transaction from its flattened traces. -/
def traceOps (calls : List FlatCall) (startIndex : Int) : Option (List Operation) :=
  if calls.isEmpty then some []
  else
    let st := calls.foldl (traceStep startIndex) ⟨[], []⟩
    destructLoop st.ops st.destroyed

/-- The operations one `traceOps` iteration emits on top of the ops built
so far. -/
def stepChunk (startIndex : Int) (st : TState) (trace : FlatCall) : List Operation :=
  (traceStep startIndex st trace).ops.drop st.ops.length

/-! ## The optimism variant of `traceOps` (`optimism` package)

Identical to the generic synthesizer except that a call-trace matching
the L2 withdrawal burn shape — a CALL to the well-known burn sink whose
input is `0x`, the `burn(address,uint256)` selector, a padded address and
a padded amount (138 hex characters in all) — additionally emits a
negative operation against the logical sender embedded in the input,
inserted between the "from" and "to" operations. -/

/-- The optimism `flatCall`, which additionally carries the call input. -/
structure OFlatCall where
  typ : String
  From : Address
  To : Address
  value : Int
  gasUsed : Option Int
  input : List Char
  revert : Bool
  errorMessage : String
deriving DecidableEq, Repr

def hexDigitVal (c : Char) : Option Nat :=
  if '0' ≤ c ∧ c ≤ '9' then some (c.toNat - '0'.toNat)
  else if 'a' ≤ c ∧ c ≤ 'f' then some (c.toNat - 'a'.toNat + 10)
  else if 'A' ≤ c ∧ c ≤ 'F' then some (c.toNat - 'A'.toNat + 10)
  else none

/-- Strict big-endian hex parse of a character run; `none` when empty or
when a non-hex character occurs. -/
def hexNat : List Char → Option Nat
  | [] => none
  | cs => cs.foldl (fun acc c =>
      match acc, hexDigitVal c with
      | some n, some d => some (16 * n + d)
      | _, _ => none) (some 0)

/-- `common.HexToAddress` over a raw 64-character hex run: decode and keep
the low 20 bytes.  (The library is lenient on malformed hex; the burn
detector only feeds it slices that were length-checked, and the proofs
only evaluate it on valid hex.) -/
def hexToAddress (cs : List Char) : Address :=
  ⟨(hexNat cs).getD 0 % 2 ^ 160⟩

def burnAddress : Address := ⟨0xdeaddeaddeaddeaddeaddeaddeaddeaddead0000⟩

def burnSelector : List Char := ['0', 'x', '9', 'd', 'c', '2', '9', 'f', 'a', 'c']

/-- The burn-detection closure inside the optimism `traceOps`: when the
trace is a CALL to the burn sink with a 138-character
`burn(address,uint256)` input, return the burned amount and the logical
sender parsed out of the input. -/
def l2WithdrawCheck (trace : OFlatCall) : Option (Int × Address) :=
  if trace.typ ≠ CallOpType then none
  else if trace.To ≠ burnAddress then none
  else if trace.input.length ≠ 138 then none
  else if ¬ trace.input.take 10 = burnSelector then none
  else
    let burnedFromAddr := hexToAddress ((trace.input.drop 10).take 64)
    let amtChars := (trace.input.drop 74).dropWhile (fun c => c = '0')
    match hexNat amtChars with
    | none => none
    | some amt => some ((amt : Int), burnedFromAddr)

/-- One iteration of the optimism `traceOps` loop: as `traceStep`, with
the burn operation inserted after the "from" operation when the burn
shape is detected. -/
def traceStepO (startIndex : Int) (st : TState) (trace : OFlatCall) : TState :=
  let opStatus : String := if trace.revert then FailureStatus else SuccessStatus
  let metaErr : Option String := if trace.revert then some trace.errorMessage else none
  let zeroValue : Bool := trace.value = 0
  let shouldAdd : Bool := !(zeroValue && CallType trace.typ)
  let l2Withdraw := l2WithdrawCheck trace
  let fr : Address := trace.From
  let toA : Address := trace.To
  let st1 : TState :=
    if shouldAdd then
      let fromAmt : Option Int := if zeroValue then none else some (-trace.value)
      let d1 : DMap :=
        if zeroValue then st.destroyed
        else if (dmapGet st.destroyed fr).isSome ∧ opStatus = SuccessStatus then
          dmapSet st.destroyed fr (((dmapGet st.destroyed fr).getD 0) - trace.value)
        else st.destroyed
      { ops := st.ops ++
          [ { index := (st.ops.length : Int) + startIndex, related := [],
              opType := trace.typ, status := some opStatus, account := fr,
              amount := fromAmt, metaErr := metaErr } ],
        destroyed := d1 }
    else st
  let st2 : TState :=
    match l2Withdraw with
    | none => st1
    | some (amt, addr) =>
      { ops := st1.ops ++
          [ { index := (st1.ops.length : Int) + startIndex, related := [],
              opType := trace.typ, status := some opStatus, account := addr,
              amount := some (-amt), metaErr := metaErr } ],
        destroyed := st1.destroyed }
  let d2 : DMap :=
    if trace.typ = SelfDestructOpType then dmapSet st2.destroyed fr 0 else st2.destroyed
  if trace.typ = SelfDestructOpType ∧ fr = toA then
    { ops := st2.ops, destroyed := d2 }
  else if (Address.str toA).length = 0 then
    { ops := st2.ops, destroyed := d2 }
  else
    let d3 : DMap := if CreateType trace.typ then dmapDel d2 toA else d2
    if shouldAdd then
      let lastOpIndex : Int := ((st2.ops.getLast?).map (·.index)).getD (startIndex - 1)
      let toAmt : Option Int := if zeroValue then none else some trace.value
      let d4 : DMap :=
        if zeroValue then d3
        else if (dmapGet d3 toA).isSome ∧ opStatus = SuccessStatus then
          dmapSet d3 toA (((dmapGet d3 toA).getD 0) + trace.value)
        else d3
      { ops := st2.ops ++
          [ { index := lastOpIndex + 1, related := [lastOpIndex],
              opType := trace.typ, status := some opStatus, account := toA,
              amount := toAmt, metaErr := metaErr } ],
        destroyed := d4 }
    else
      { ops := st2.ops, destroyed := d3 }

/-- The optimism `traceOps`. -/
def traceOpsO (calls : List OFlatCall) (startIndex : Int) : Option (List Operation) :=
  if calls.isEmpty then some []
  else
    let st := calls.foldl (traceStepO startIndex) ⟨[], []⟩
    destructLoop st.ops st.destroyed

/-- The operations one optimism iteration emits. -/
def stepChunkO (startIndex : Int) (st : TState) (trace : OFlatCall) : List Operation :=
  (traceStepO startIndex st trace).ops.drop st.ops.length

/-! ## Batched receipt fetch (`Client.getBlockReceipts`, `ethereum/client.go`) -/

/-- The part of a `types.Receipt` this code inspects. -/
structure Receipt where
  blockHash : Nat
deriving DecidableEq, Repr

/-- One element of the batched `eth_getTransactionReceipt` response: the
per-element RPC error and the decoded receipt (nil when the node knows no
such transaction). -/
structure BatchElemResult where
  err : Option String
  receipt : Option Receipt
deriving DecidableEq, Repr

inductive ReceiptsErr
  /-- a failed batch element's own error -/
  | elemErr (e : String)
  /-- `got empty receipt for ...` -/
  | emptyReceipt (i : Nat)
  /-- `ErrBlockOrphaned`-wrapped mismatch -/
  | orphaned (expected got : Nat)
deriving DecidableEq, Repr

/-- The validation loop of `getBlockReceipts` over the batch responses, in
index order: element error, then missing receipt, then block-hash
mismatch. -/
def receiptsCheckLoop (blockHash : Nat) : Nat → List BatchElemResult → Except ReceiptsErr Unit
  | _, [] => .ok ()
  | i, r :: rest =>
    match r.err with
    | some e => .error (.elemErr e)
    | none =>
      match r.receipt with
      | none => .error (.emptyReceipt i)
      | some rcpt =>
        if rcpt.blockHash ≠ blockHash then .error (.orphaned blockHash rcpt.blockHash)
        else receiptsCheckLoop blockHash (i + 1) rest

/-- `Client.getBlockReceipts` after the batch call returned: either the
first failure, or every receipt in transaction order.  (A transport-level
`BatchCallContext` failure returns the transport error before this point
and yields no receipts either.) -/
def getBlockReceipts (blockHash : Nat) (resps : List BatchElemResult) :
    Except ReceiptsErr (List Receipt) :=
  match receiptsCheckLoop blockHash 0 resps with
  | .error e => .error e
  | .ok _ => .ok (resps.filterMap (·.receipt))

/-! ## Single-transaction fetch receipt handling (`Client.Transaction`,
`ethereum/client.go:250-261`) -/

/-- `Client.transactionReceipt`: on a clean RPC round trip with a nil
decoded receipt it substitutes `ethereum.NotFound`; otherwise it passes
the receipt pointer and error through unchanged. -/
def transactionReceipt (r : Option Receipt) (err : Option String) :
    Option Receipt × Option String :=
  match err, r with
  | none, none => (none, some "not found")
  | _, _ => (r, err)

inductive TxOutcome
  /-- dereference of a nil receipt pointer (Go panics) -/
  | nilPanic
  | orphaned (expected got : Nat)
  /-- the wrapped `could not get receipt` error path -/
  | receiptErr (e : String)
  | ok (r : Receipt)
deriving DecidableEq, Repr

/-- The receipt-handling fragment of `Client.Transaction`: it compares
`receipt.BlockHash` against the body's block hash *before* checking the
error returned by the receipt fetch, so a nil receipt is dereferenced
first. -/
def transactionReceiptCheck (fetched : Option Receipt × Option String)
    (bodyBlockHash : Nat) : TxOutcome :=
  match fetched.1 with
  | none => .nilPanic
  | some receipt =>
    if receipt.blockHash ≠ bodyBlockHash then .orphaned bodyBlockHash receipt.blockHash
    else
      match fetched.2 with
      | some e => .receiptErr e
      | none => .ok receipt

/-! ## `Call.UnmarshalJSON` (`ethereum/client.go:674-712`) -/

/-- The decoded `CustomTrace` intermediate: `value` and `gasUsed` are
nullable hex integers, children are already-decoded `Call`s. -/
structure CustomTrace where
  typ : String
  From : Address
  To : Address
  value : Option Int
  gasUsed : Option Int
  errorMessage : String
  calls : List Call
deriving Repr

/-- The assignment at the end of `Call.UnmarshalJSON`: a nil value decodes
to zero; `GasUsed` is assigned from the decoded *value* pointer (the
line `t.GasUsed = (*big.Int)(dec.Value)`) when a gasUsed was present, so
it is nil exactly when `value` was absent; a non-empty error message sets
the revert flag. -/
def unmarshalCall (dec : CustomTrace) : Call :=
  .mk dec.typ dec.From dec.To (dec.value.getD 0)
    (if dec.gasUsed.isSome then dec.value else some 0)
    (decide (dec.errorMessage ≠ "")) dec.errorMessage dec.calls

/-! ## Construction pipeline (`services`, `construction_service` file)

Symbolic model of the cryptographic collaborators (go-ethereum): the
EIP-155 signing hash is the injective tuple of the signed fields plus the
chain id; an ECDSA signature is a blob recording the hash it signs and the
address of the signing key; sender recovery succeeds exactly on the hash
the signature was made over. The JSON wire forms of the unsigned and
signed transactions are encode/decode inverse pairs in the source, so the
embedding passes the structures themselves between the steps. -/

/-- An externally-supplied address string: either a parseable mixed-case
address rendering (with a flag recording whether it is the canonical
checksum rendering) or an invalid string. -/
inductive AddrStr
  | good (a : Address) (canonical : Bool)
  | bad (s : String)
deriving DecidableEq, Repr

/-- `ethereum.ChecksumAddress` (`ethereum/address.go`): parse, then render
canonically. -/
def ChecksumAddress : AddrStr → Option Address
  | .good a _ => some a
  | .bad _ => none

/-- The ETH currency constant (`ethereum/types.go`). -/
def ETHCurrency : String := "ETH"

/-- A Rosetta operation as it crosses the construction API: the account is
a raw address string and the amount is present with its currency. -/
structure ROp where
  index : Int
  related : List Int
  opType : String
  account : AddrStr
  amount : Int
  currency : String
deriving DecidableEq, Repr

def matchesNegDesc (o : ROp) : Bool :=
  o.opType = CallOpType && o.currency = ETHCurrency && o.amount < 0

def matchesPosDesc (o : ROp) : Bool :=
  o.opType = CallOpType && o.currency = ETHCurrency && o.amount > 0

/-- `parser.MatchOperations` (rosetta-sdk-go, external library) for the
two fixed descriptions used by Preprocess and Payloads (one CALL with
negative ETH amount, one CALL with positive ETH amount, `ErrUnmatched`
set): exactly two operations, one matched to each description. -/
def MatchOperations (ops : List ROp) : Option (ROp × ROp) :=
  match ops with
  | [o1, o2] =>
    if matchesNegDesc o1 && matchesPosDesc o2 then some (o1, o2)
    else if matchesNegDesc o2 && matchesPosDesc o1 then some (o2, o1)
    else none
  | _ => none

/-- The signed field set of a legacy go-ethereum transaction built by
`ethTypes.NewTransaction`. -/
structure LegacyTxFields where
  nonce : Nat
  gasPrice : Int
  gas : Nat
  toAddr : Address
  value : Int
  data : List Nat
deriving DecidableEq, Repr

/-- Symbolic EIP-155 signing hash (`signer.Hash(tx)`): the injective
record of what the hash commits to. -/
structure SigHash where
  fields : LegacyTxFields
  chainId : Int
deriving DecidableEq, Repr

/-- Symbolic 65-byte ECDSA signature: made over `hash` by the key whose
derived address is `signer`. -/
structure Sig where
  hash : SigHash
  signer : Address
deriving DecidableEq, Repr

/-- Sender recovery (`AsMessage` / `Sender`): recovers the signing address
exactly on the hash the signature covers (symbolic unforgeability). -/
def recoverSender (h : SigHash) (s : Sig) : Option Address :=
  if s.hash = h then some s.signer else none

/-- The signed transaction produced by `WithSignature` under an EIP-155
signer: the legacy fields, the chain id folded into v, and the signature. -/
structure SignedTx where
  fields : LegacyTxFields
  chainId : Int
  sig : Sig
deriving DecidableEq, Repr

/-- The `transaction` struct of the services package (the unsigned wire
form, JSON with hex-encoded integers). -/
structure UnsignedTx where
  From : Address
  To : Address
  value : Int
  data : List Nat
  nonce : Nat
  gasPrice : Int
  gasLimit : Nat
  chainID : Int
deriving DecidableEq, Repr

/-- `metadata` (nonce and gas price) as fed to Payloads. -/
structure CMetadata where
  nonce : Nat
  gasPrice : Int
deriving DecidableEq, Repr

/-- A signing payload: account, sign-hash bytes, ECDSA-recovery type. -/
structure SigningPayload where
  account : Address
  bytes : SigHash
deriving DecidableEq, Repr

inductive SvcErr
  | unclearIntent
  | invalidAddress
  | invalidSignature
  | parseError
deriving DecidableEq, Repr

/-- `ConstructionPayloads`: match the two-operation intent, build the
unsigned transaction (fixed 21000 gas limit, empty data, the positive
operation's amount) and the single EIP-155 signing payload for the
checksummed sender. -/
def ConstructionPayloads (chainID : Int) (reqOps : List ROp) (md : CMetadata) :
    Except SvcErr (UnsignedTx × SigningPayload) :=
  match MatchOperations reqOps with
  | none => .error .unclearIntent
  | some (fromOp, toOp) =>
    let amount := toOp.amount
    match ChecksumAddress fromOp.account with
    | none => .error .invalidAddress
    | some checkFrom =>
      match ChecksumAddress toOp.account with
      | none => .error .invalidAddress
      | some checkTo =>
        let txFields : LegacyTxFields :=
          ⟨md.nonce, md.gasPrice, TransferGasLimit, checkTo, amount, []⟩
        let unsignedTx : UnsignedTx :=
          ⟨checkFrom, checkTo, amount, [], md.nonce, md.gasPrice, TransferGasLimit, chainID⟩
        .ok (unsignedTx, ⟨checkFrom, ⟨txFields, chainID⟩⟩)

/-- `ConstructionCombine`: decode the unsigned wire form, rebuild the
legacy transaction and attach the one signature under the EIP-155 signer
of the embedded chain id. -/
def ConstructionCombine (u : UnsignedTx) (sig : Sig) : Except SvcErr SignedTx :=
  .ok ⟨⟨u.nonce, u.gasPrice, u.gasLimit, u.To, u.value, u.data⟩, u.chainID, sig⟩

/-- The parse response: the reconstructed two operations, the signer
accounts, and the nonce/gas-price/chain-id metadata. -/
structure ParseResp where
  operations : List ROp
  signers : List Address
  mdNonce : Nat
  mdGasPrice : Int
  mdChainID : Int
deriving DecidableEq, Repr

/-- `ConstructionParse` on the signed path: decode the signed wire form,
recover the sender through the EIP-155 signer of the transaction's chain
id, checksum both addresses and rebuild the canonical two-operation
shape with the sender as sole signer. -/
def ConstructionParseSigned (st : SignedTx) : Except SvcErr ParseResp :=
  match recoverSender ⟨st.fields, st.chainId⟩ st.sig with
  | none => .error .parseError
  | some sender =>
    match ChecksumAddress (.good sender true) with
    | none => .error .invalidAddress
    | some checkFrom =>
      match ChecksumAddress (.good st.fields.toAddr true) with
      | none => .error .invalidAddress
      | some checkTo =>
        .ok { operations :=
                [ ⟨0, [], CallOpType, .good checkFrom true, -st.fields.value, ETHCurrency⟩,
                  ⟨1, [0], CallOpType, .good checkTo true, st.fields.value, ETHCurrency⟩ ],
              signers := [checkFrom],
              mdNonce := st.fields.nonce, mdGasPrice := st.fields.gasPrice,
              mdChainID := st.chainId }

/-! ## Helper lemmas about the destroyed-accounts map -/

theorem dmapGet_map_replace (m : DMap) (k : Address) (v : Int) :
    dmapGet (m.map (fun e => if e.1 = k then (k, v) else e)) k =
      if (dmapGet m k).isSome then some v else none := by
  induction m with
  | nil => simp [dmapGet]
  | cons e rest ih =>
    by_cases h : e.1 = k
    · simp [dmapGet, h]
    · rw [dmapGet, dmapGet, List.map_cons, if_neg h,
        List.find?_cons_of_neg _ (by simpa using h),
        List.find?_cons_of_neg _ (by simpa using h)]
      exact ih

theorem dmapGet_append_single (m : DMap) (k : Address) (v : Int)
    (h : dmapGet m k = none) : dmapGet (m ++ [(k, v)]) k = some v := by
  induction m with
  | nil => simp [dmapGet]
  | cons e rest ih =>
    have he : ¬(e.1 = k) := by
      intro hk
      rw [dmapGet, List.find?_cons_of_pos _ (by simpa using hk)] at h
      simp at h
    rw [dmapGet, List.find?_cons_of_neg _ (by simpa using he)] at h
    rw [dmapGet, List.cons_append, List.find?_cons_of_neg _ (by simpa using he)]
    exact ih h

theorem dmapGet_set_self (m : DMap) (k : Address) (v : Int) :
    dmapGet (dmapSet m k v) k = some v := by
  unfold dmapSet
  by_cases h : (dmapGet m k).isSome
  · simp only [h, if_true, dmapGet_map_replace, h]
  · simp only [h, if_false]
    exact dmapGet_append_single m k v (by
      cases hg : dmapGet m k with
      | none => rfl
      | some x => rw [hg] at h; simp at h)

/-! ## Claim theorems -/

/-- Claim C9: in `Client.Transaction`, the fetched receipt's `BlockHash`
is dereferenced and compared against the transaction's block hash before
the receipt-fetch error is checked, so whenever the receipt fetch returns
a nil receipt together with a non-nil error (as `transactionReceipt` does
whenever the underlying RPC call fails), the function hits a nil-pointer
dereference instead of returning that error. -/
theorem transaction_nil_receipt_deref (e : String) (bodyBlockHash : Nat) :
    transactionReceipt none (some e) = (none, some e) ∧
    transactionReceiptCheck (none, some e) bodyBlockHash = .nilPanic ∧
    transactionReceiptCheck (none, some e) bodyBlockHash ≠ .receiptErr e := by
  refine ⟨rfl, rfl, ?_⟩
  intro h
  exact TxOutcome.noConfusion h

/-- Claim C10, counterexample: a decoded trace with `gasUsed` present but
`value` absent gets a nil `GasUsed` while its `Value` is zero, so
`GasUsed` does not equal its `Value`. -/
theorem unmarshal_gasUsed_value_counterexample :
    let dec : CustomTrace := ⟨"CALL", ⟨1⟩, ⟨2⟩, none, some 5, "", []⟩
    dec.gasUsed.isSome = true ∧
    (unmarshalCall dec).gasUsed = none ∧
    (unmarshalCall dec).value = 0 ∧
    ¬ (unmarshalCall dec).gasUsed = some ((unmarshalCall dec).value) := by
  refine ⟨rfl, rfl, rfl, ?_⟩
  intro h
  exact Option.noConfusion h

/-- Claim C10 (amended): `Call.UnmarshalJSON` assigns the decoded value
pointer (not the decoded gasUsed) to the resulting Call's `GasUsed`, so
every decoded trace with a present gasUsed and a present value has
`GasUsed` equal to its `Value`; when the value is absent, `GasUsed` is
nil while `Value` is zero. -/
theorem unmarshal_gasUsed_is_value (dec : CustomTrace)
    (h : dec.gasUsed.isSome = true) :
    (unmarshalCall dec).gasUsed = dec.value ∧
    (∀ v, dec.value = some v →
      (unmarshalCall dec).gasUsed = some ((unmarshalCall dec).value)) ∧
    (dec.value = none →
      (unmarshalCall dec).gasUsed = none ∧ (unmarshalCall dec).value = 0) := by
  refine ⟨?_, ?_, ?_⟩
  · simp [unmarshalCall, Call.gasUsed, h]
  · intro v hv
    simp [unmarshalCall, Call.gasUsed, Call.value, h, hv]
  · intro hv
    simp [unmarshalCall, Call.gasUsed, Call.value, h, hv]

/-- Witness for C10's amended theorem at a concrete decoded trace. -/
theorem unmarshal_gasUsed_is_value_witness :
    (CustomTrace.mk "CALL" ⟨1⟩ ⟨2⟩ (some 8) (some 5) "" []).gasUsed.isSome = true ∧
    (unmarshalCall ⟨"CALL", ⟨1⟩, ⟨2⟩, some 8, some 5, "", []⟩).gasUsed = some 8 :=
  ⟨rfl, (unmarshal_gasUsed_is_value ⟨"CALL", ⟨1⟩, ⟨2⟩, some 8, some 5, "", []⟩ rfl).1⟩

/-- Claim C2: for every loaded transaction whose fee data comes from
`calculateGas`, operation 0 debits the sender; without a base fee the ops
are exactly sender −fee / miner +fee; with a base fee the total sender
debit of `gasUsed × effectiveGasPrice` is split into the non-burned
remainder (debited at index 0 and credited to the miner at index 1) and a
separate burn debit against the sender at index 2; all fee operations
have SUCCESS status; concretely, gasUsed 21000 at gas price 10000 with no
base fee yields sender −210000000 at index 0 and miner +210000000 at
index 1. -/
theorem feeOps_fee_split (sender miner : Address) (tx : EthTx) (gasUsed : Nat)
    (baseFee : Option Int) (p : Int)
    (hp : effectiveGasPrice tx baseFee = .ok p) :
    calculateGas tx gasUsed baseFee =
      .ok ((gasUsed : Int) * p, baseFee.map (fun b => (gasUsed : Int) * b)) ∧
    (baseFee = none →
      feeOps ⟨sender, miner, (gasUsed : Int) * p, none⟩ =
        [ ⟨0, [], FeeOpType, some SuccessStatus, sender, some (-((gasUsed : Int) * p)), none⟩,
          ⟨1, [0], FeeOpType, some SuccessStatus, miner, some ((gasUsed : Int) * p), none⟩ ]) ∧
    (∀ b, baseFee = some b →
      feeOps ⟨sender, miner, (gasUsed : Int) * p, some ((gasUsed : Int) * b)⟩ =
        [ ⟨0, [], FeeOpType, some SuccessStatus, sender,
            some (-((gasUsed : Int) * p - (gasUsed : Int) * b)), none⟩,
          ⟨1, [0], FeeOpType, some SuccessStatus, miner,
            some ((gasUsed : Int) * p - (gasUsed : Int) * b), none⟩,
          ⟨2, [], FeeOpType, some SuccessStatus, sender,
            some (-((gasUsed : Int) * b)), none⟩ ] ∧
      -((gasUsed : Int) * p - (gasUsed : Int) * b) + -((gasUsed : Int) * b) =
        -((gasUsed : Int) * p)) ∧
    (∀ op ∈ feeOps ⟨sender, miner, (gasUsed : Int) * p,
        baseFee.map (fun b => (gasUsed : Int) * b)⟩,
      op.status = some SuccessStatus) ∧
    (calculateGas ⟨0, 10000, 0, 0⟩ 21000 none = .ok (210000000, none) ∧
      feeOps ⟨sender, miner, 210000000, none⟩ =
        [ ⟨0, [], FeeOpType, some SuccessStatus, sender, some (-210000000), none⟩,
          ⟨1, [0], FeeOpType, some SuccessStatus, miner, some 210000000, none⟩ ]) := by
  refine ⟨?_, ?_, ?_, ?_, ?_, ?_⟩
  · simp [calculateGas, hp]
  · intro hb
    simp [feeOps]
  · intro b hb
    refine ⟨by simp [feeOps], by ring⟩
  · intro op hop
    cases baseFee with
    | none =>
      simp [feeOps] at hop
      rcases hop with h | h <;> subst h <;> rfl
    | some b =>
      simp [feeOps] at hop
      rcases hop with h | h | h <;> subst h <;> rfl
  · exact rfl
  · simp [feeOps]

/-- Witness for C2 at a legacy transaction with gas price 10000 and gas
used 21000 and no base fee. -/
theorem feeOps_fee_split_witness :
    effectiveGasPrice ⟨0, 10000, 0, 0⟩ none = .ok 10000 ∧
    feeOps ⟨⟨1⟩, ⟨2⟩, ((21000 : Nat) : Int) * 10000, none⟩ =
      [ ⟨0, [], FeeOpType, some SuccessStatus, ⟨1⟩, some (-(((21000 : Nat) : Int) * 10000)), none⟩,
        ⟨1, [0], FeeOpType, some SuccessStatus, ⟨2⟩, some (((21000 : Nat) : Int) * 10000), none⟩ ] :=
  ⟨rfl, (feeOps_fee_split ⟨1⟩ ⟨2⟩ ⟨0, 10000, 0, 0⟩ 21000 none 10000 rfl).2.1 rfl⟩

/-- Claim C8: for every SELFDESTRUCT trace whose from address equals its
to address, the `traceOps` iteration emits only the "from" operation (no
"to" operation), and the destroyed-account ledger entry for that address
is exactly zero afterwards — the SELFDESTRUCT overwrite happens before
the destination is evaluated, and the destination half is skipped. -/
theorem traceOps_selfdestruct_self (si : Int) (st : TState) (t : FlatCall)
    (h1 : t.typ = SelfDestructOpType) (h2 : t.From = t.To) :
    (traceStep si st t).ops = st.ops ++
      [ { index := (st.ops.length : Int) + si, related := [], opType := t.typ,
          status := some (if t.revert then FailureStatus else SuccessStatus),
          account := t.From,
          amount := if t.value = 0 then none else some (-t.value),
          metaErr := if t.revert then some t.errorMessage else none } ] ∧
    dmapGet (traceStep si st t).destroyed t.From = some 0 := by
  have hct : CallType SelfDestructOpType = false := by rfl
  constructor
  · simp [traceStep, hct, h1, h2]
  · simp [traceStep, hct, h1, h2, dmapGet_set_self]

/-- Witness for C8 at a concrete self-targeted SELFDESTRUCT trace. -/
theorem traceOps_selfdestruct_self_witness :
    (traceStep 0 ⟨[], []⟩ ⟨"SELFDESTRUCT", ⟨1⟩, ⟨1⟩, 3, none, false, ""⟩).ops =
      [ ⟨0, [], "SELFDESTRUCT", some SuccessStatus, ⟨1⟩, some (-3), none⟩ ] ∧
    dmapGet (traceStep 0 ⟨[], []⟩
      ⟨"SELFDESTRUCT", ⟨1⟩, ⟨1⟩, 3, none, false, ""⟩).destroyed ⟨1⟩ = some 0 := by
  have h := traceOps_selfdestruct_self 0 ⟨[], []⟩
    ⟨"SELFDESTRUCT", ⟨1⟩, ⟨1⟩, 3, none, false, ""⟩ rfl rfl
  simpa using h

/-- The operation literal the `traceOps` loop builds: index, related
indices, trace type, status derived from the revert flag, account,
amount, and the error metadata set exactly for reverted traces. -/
def traceOpAt (idx : Int) (rel : List Int) (t : String) (revert : Bool)
    (msg : String) (acct : Address) (amt : Option Int) : Operation :=
  { index := idx, related := rel, opType := t,
    status := some (if revert then FailureStatus else SuccessStatus),
    account := acct, amount := amt,
    metaErr := if revert then some msg else none }

theorem traceStep_ops_chunk (si : Int) (st : TState) (t : FlatCall) :
    (traceStep si st t).ops = st.ops ++ stepChunk si st t := by
  by_cases hsd : t.typ = SelfDestructOpType
  · have hc : CallType SelfDestructOpType = false := by rfl
    by_cases hft : t.From = t.To
    · simp [stepChunk, traceStep, hsd, hft, hc, List.drop_left]
    · simp [stepChunk, traceStep, hsd, hft, hc, Address.str_ne_empty,
        List.drop_left, List.getLast?_concat]
  · by_cases hz : t.value = 0 <;> by_cases hc : CallType t.typ = true <;>
      simp [stepChunk, traceStep, hsd, hz, hc, Address.str_ne_empty,
        List.drop_left, List.getLast?_concat]

theorem traceStepO_ops_chunk (si : Int) (st : TState) (ot : OFlatCall) :
    (traceStepO si st ot).ops = st.ops ++ stepChunkO si st ot := by
  rcases hlw : l2WithdrawCheck ot with _ | ⟨amt, addr⟩
  · by_cases hsd : ot.typ = SelfDestructOpType
    · have hc : CallType SelfDestructOpType = false := by rfl
      by_cases hft : ot.From = ot.To
      · simp [stepChunkO, traceStepO, hsd, hft, hc, hlw, List.drop_left]
      · simp [stepChunkO, traceStepO, hsd, hft, hc, hlw, Address.str_ne_empty,
          List.drop_left, List.getLast?_concat]
    · by_cases hz : ot.value = 0 <;> by_cases hc : CallType ot.typ = true <;>
        simp [stepChunkO, traceStepO, hsd, hz, hc, hlw, Address.str_ne_empty,
          List.drop_left, List.getLast?_concat]
  · have ht : ot.typ = CallOpType := by
      by_contra hne
      simp [l2WithdrawCheck, hne] at hlw
    have hc : CallType CallOpType = true := by rfl
    have hnsd : ¬(CallOpType = SelfDestructOpType) := by decide
    by_cases hz : ot.value = 0 <;>
      simp [stepChunkO, traceStepO, ht, hz, hc, hnsd, hlw, Address.str_ne_empty,
        List.drop_left, List.getLast?_concat]

/-- Shape analysis of one generic `traceOps` iteration: it emits nothing,
only the "from" operation, or the "from"/"to" pair, where the "to"
operation's single related index is the "from" operation's index. -/
theorem stepChunk_shapes (si : Int) (st : TState) (t : FlatCall) :
    stepChunk si st t = [] ∨
    stepChunk si st t =
      [ traceOpAt ((st.ops.length : Int) + si) [] t.typ t.revert t.errorMessage t.From
          (if t.value = 0 then none else some (-t.value)) ] ∨
    stepChunk si st t =
      [ traceOpAt ((st.ops.length : Int) + si) [] t.typ t.revert t.errorMessage t.From
          (if t.value = 0 then none else some (-t.value)),
        traceOpAt ((st.ops.length : Int) + si + 1) [(st.ops.length : Int) + si] t.typ
          t.revert t.errorMessage t.To
          (if t.value = 0 then none else some t.value) ] := by
  by_cases hsd : t.typ = SelfDestructOpType
  · have hc : CallType SelfDestructOpType = false := by rfl
    by_cases hft : t.From = t.To
    · right; left
      simp [stepChunk, traceStep, traceOpAt, hsd, hft, hc, List.drop_left]
    · right; right
      simp [stepChunk, traceStep, traceOpAt, hsd, hft, hc, Address.str_ne_empty,
        List.drop_left, List.getLast?_concat]
  · by_cases hz : t.value = 0 <;> by_cases hc : CallType t.typ = true
    · left
      simp [stepChunk, traceStep, hsd, hz, hc, Address.str_ne_empty]
    · right; right
      simp [stepChunk, traceStep, traceOpAt, hsd, hz, hc, Address.str_ne_empty,
        List.drop_left, List.getLast?_concat]
    · right; right
      simp [stepChunk, traceStep, traceOpAt, hsd, hz, hc, Address.str_ne_empty,
        List.drop_left, List.getLast?_concat]
    · right; right
      simp [stepChunk, traceStep, traceOpAt, hsd, hz, hc, Address.str_ne_empty,
        List.drop_left, List.getLast?_concat]

/-- Shape analysis of one optimism `traceOps` iteration: as the generic
one, except that a detected burn inserts an extra operation between the
"from" and "to" halves, and the "to" operation's related index is then
the burn operation's index. -/
theorem stepChunkO_shapes (si : Int) (st : TState) (ot : OFlatCall) :
    stepChunkO si st ot = [] ∨
    stepChunkO si st ot =
      [ traceOpAt ((st.ops.length : Int) + si) [] ot.typ ot.revert ot.errorMessage ot.From
          (if ot.value = 0 then none else some (-ot.value)) ] ∨
    stepChunkO si st ot =
      [ traceOpAt ((st.ops.length : Int) + si) [] ot.typ ot.revert ot.errorMessage ot.From
          (if ot.value = 0 then none else some (-ot.value)),
        traceOpAt ((st.ops.length : Int) + si + 1) [(st.ops.length : Int) + si] ot.typ
          ot.revert ot.errorMessage ot.To
          (if ot.value = 0 then none else some ot.value) ] ∨
    (∃ amt addr, l2WithdrawCheck ot = some (amt, addr) ∧
      stepChunkO si st ot =
        [ traceOpAt ((st.ops.length : Int) + si) [] ot.typ ot.revert ot.errorMessage addr
            (some (-amt)) ]) ∨
    (∃ amt addr, l2WithdrawCheck ot = some (amt, addr) ∧
      stepChunkO si st ot =
        [ traceOpAt ((st.ops.length : Int) + si) [] ot.typ ot.revert ot.errorMessage ot.From
            (some (-ot.value)),
          traceOpAt ((st.ops.length : Int) + si + 1) [] ot.typ ot.revert ot.errorMessage addr
            (some (-amt)),
          traceOpAt ((st.ops.length : Int) + si + 2) [(st.ops.length : Int) + si + 1] ot.typ
            ot.revert ot.errorMessage ot.To (some ot.value) ]) := by
  rcases hlw : l2WithdrawCheck ot with _ | ⟨amt, addr⟩
  · by_cases hsd : ot.typ = SelfDestructOpType
    · have hc : CallType SelfDestructOpType = false := by rfl
      by_cases hft : ot.From = ot.To
      · right; left
        simp [stepChunkO, traceStepO, traceOpAt, hsd, hft, hc, hlw, List.drop_left]
      · right; right; left
        simp [stepChunkO, traceStepO, traceOpAt, hsd, hft, hc, hlw, Address.str_ne_empty,
          List.drop_left, List.getLast?_concat]
    · by_cases hz : ot.value = 0 <;> by_cases hc : CallType ot.typ = true
      · left
        simp [stepChunkO, traceStepO, hsd, hz, hc, hlw, Address.str_ne_empty]
      · right; right; left
        simp [stepChunkO, traceStepO, traceOpAt, hsd, hz, hc, hlw, Address.str_ne_empty,
          List.drop_left, List.getLast?_concat]
      · right; right; left
        simp [stepChunkO, traceStepO, traceOpAt, hsd, hz, hc, hlw, Address.str_ne_empty,
          List.drop_left, List.getLast?_concat]
      · right; right; left
        simp [stepChunkO, traceStepO, traceOpAt, hsd, hz, hc, hlw, Address.str_ne_empty,
          List.drop_left, List.getLast?_concat]
  · have ht : ot.typ = CallOpType := by
      by_contra hne
      simp [l2WithdrawCheck, hne] at hlw
    have hc : CallType CallOpType = true := by rfl
    have hnsd : ¬(CallOpType = SelfDestructOpType) := by decide
    by_cases hz : ot.value = 0
    · right; right; right; left
      refine ⟨amt, addr, rfl, ?_⟩
      simp [stepChunkO, traceStepO, traceOpAt, ht, hz, hc, hnsd, hlw, Address.str_ne_empty,
        List.drop_left]
    · right; right; right; right
      refine ⟨amt, addr, rfl, ?_⟩
      simp [stepChunkO, traceStepO, traceOpAt, ht, hz, hc, hnsd, hlw, Address.str_ne_empty,
        List.drop_left, List.getLast?_concat]
      omega

/-- Claim C3, counterexample: in the optimism `traceOps`, a burn-shaped
CALL trace emits [from, burn, to] and the "to" operation's related index
is 1 — the inserted burn operation — while the "from" operation emitted
for the same trace has index 0, so the claimed invariant fails there. -/
theorem traceOps_to_related_counterexample :
    traceOpsO
      [ ⟨"CALL", ⟨9⟩, burnAddress, 4, none,
          burnSelector ++ (List.replicate 63 '0' ++ ['1']) ++ (List.replicate 63 '0' ++ ['5']),
          false, ""⟩ ] 0 =
      some [ ⟨0, [], "CALL", some SuccessStatus, ⟨9⟩, some (-4), none⟩,
             ⟨1, [], "CALL", some SuccessStatus, ⟨1⟩, some (-5), none⟩,
             ⟨2, [1], "CALL", some SuccessStatus, burnAddress, some 4, none⟩ ] ∧
    ¬ (([1] : List Int) = [0]) := by
  constructor
  · set_option maxRecDepth 10000 in decide
  · decide

/-- Claim C3 (amended): in each `traceOps` iteration the emitted "to"
operation carries exactly one related index — the index of the operation
immediately preceding it.  In the generic synthesizer that is always the
"from" operation emitted for the same trace; in the optimism variant a
detected burn inserts one operation between them, and the "to"
operation's related index is then the burn operation's index. -/
theorem traceOps_to_related_prev_op (si : Int) (st : TState) (t : FlatCall)
    (ot : OFlatCall) :
    ((traceStep si st t).ops = st.ops ++ stepChunk si st t ∧
      (stepChunk si st t = [] ∨
       stepChunk si st t =
         [ traceOpAt ((st.ops.length : Int) + si) [] t.typ t.revert t.errorMessage t.From
             (if t.value = 0 then none else some (-t.value)) ] ∨
       stepChunk si st t =
         [ traceOpAt ((st.ops.length : Int) + si) [] t.typ t.revert t.errorMessage t.From
             (if t.value = 0 then none else some (-t.value)),
           traceOpAt ((st.ops.length : Int) + si + 1) [(st.ops.length : Int) + si] t.typ
             t.revert t.errorMessage t.To
             (if t.value = 0 then none else some t.value) ])) ∧
    ((traceStepO si st ot).ops = st.ops ++ stepChunkO si st ot ∧
      (stepChunkO si st ot = [] ∨
       stepChunkO si st ot =
         [ traceOpAt ((st.ops.length : Int) + si) [] ot.typ ot.revert ot.errorMessage ot.From
             (if ot.value = 0 then none else some (-ot.value)) ] ∨
       stepChunkO si st ot =
         [ traceOpAt ((st.ops.length : Int) + si) [] ot.typ ot.revert ot.errorMessage ot.From
             (if ot.value = 0 then none else some (-ot.value)),
           traceOpAt ((st.ops.length : Int) + si + 1) [(st.ops.length : Int) + si] ot.typ
             ot.revert ot.errorMessage ot.To
             (if ot.value = 0 then none else some ot.value) ] ∨
       (∃ amt addr, l2WithdrawCheck ot = some (amt, addr) ∧
         stepChunkO si st ot =
           [ traceOpAt ((st.ops.length : Int) + si) [] ot.typ ot.revert ot.errorMessage addr
               (some (-amt)) ]) ∨
       (∃ amt addr, l2WithdrawCheck ot = some (amt, addr) ∧
         stepChunkO si st ot =
           [ traceOpAt ((st.ops.length : Int) + si) [] ot.typ ot.revert ot.errorMessage ot.From
               (some (-ot.value)),
             traceOpAt ((st.ops.length : Int) + si + 1) [] ot.typ ot.revert ot.errorMessage addr
               (some (-amt)),
             traceOpAt ((st.ops.length : Int) + si + 2) [(st.ops.length : Int) + si + 1] ot.typ
               ot.revert ot.errorMessage ot.To (some ot.value) ]))) :=
  ⟨⟨traceStep_ops_chunk si st t, stepChunk_shapes si st t⟩,
   ⟨traceStepO_ops_chunk si st ot, stepChunkO_shapes si st ot⟩⟩

/-- Claim C1: for every two-operation transfer intent accepted by
ConstructionPayloads (negative CALL op for the sender, positive CALL op
for the recipient), combining the produced unsigned transaction with the
sender's signature over the produced signing payload and parsing the
result on the signed path reproduces the original two operations (index
0: from-account with negated value; index 1: to-account with positive
value, related to index 0) and reports the sender's checksum address as
the sole signer. -/
theorem construction_signed_roundtrip (A B : Address) (X : Int) (nonce : Nat)
    (gasPrice : Int) (chainID : Int) (sig : Sig)
    (hX : 0 < X)
    (hsig : sig.hash = ⟨⟨nonce, gasPrice, TransferGasLimit, B, X, []⟩, chainID⟩)
    (hsigner : sig.signer = A) :
    ∃ u p stx,
      ConstructionPayloads chainID
        [ ⟨0, [], CallOpType, .good A true, -X, ETHCurrency⟩,
          ⟨1, [0], CallOpType, .good B true, X, ETHCurrency⟩ ] ⟨nonce, gasPrice⟩ =
        .ok (u, p) ∧
      p.account = A ∧ p.bytes = sig.hash ∧
      ConstructionCombine u sig = .ok stx ∧
      ConstructionParseSigned stx =
        .ok ⟨[ ⟨0, [], CallOpType, .good A true, -X, ETHCurrency⟩,
               ⟨1, [0], CallOpType, .good B true, X, ETHCurrency⟩ ],
             [A], nonce, gasPrice, chainID⟩ := by
  have hneg : matchesNegDesc ⟨0, [], CallOpType, .good A true, -X, ETHCurrency⟩ = true := by
    simp [matchesNegDesc]
    omega
  have hpos : matchesPosDesc ⟨1, [0], CallOpType, .good B true, X, ETHCurrency⟩ = true := by
    simp [matchesPosDesc]
    omega
  refine ⟨⟨A, B, X, [], nonce, gasPrice, TransferGasLimit, chainID⟩,
    ⟨A, ⟨⟨nonce, gasPrice, TransferGasLimit, B, X, []⟩, chainID⟩⟩,
    ⟨⟨nonce, gasPrice, TransferGasLimit, B, X, []⟩, chainID, sig⟩, ?_, rfl, ?_, rfl, ?_⟩
  · simp [ConstructionPayloads, MatchOperations, hneg, hpos, ChecksumAddress]
  · rw [hsig]
  · simp [ConstructionParseSigned, recoverSender, hsig, hsigner, ChecksumAddress]

/-- Witness for C1 at a concrete transfer of 5 wei from address 1 to
address 2 with nonce 7, gas price 3 and chain id 10, signed by address
1's key over the produced payload. -/
theorem construction_signed_roundtrip_witness :
    (0 : Int) < 5 ∧
    ∃ u p stx,
      ConstructionPayloads 10
        [ ⟨0, [], CallOpType, .good ⟨1⟩ true, -5, ETHCurrency⟩,
          ⟨1, [0], CallOpType, .good ⟨2⟩ true, 5, ETHCurrency⟩ ] ⟨7, 3⟩ =
        .ok (u, p) ∧
      p.account = ⟨1⟩ ∧
      p.bytes = Sig.hash ⟨⟨⟨7, 3, 21000, ⟨2⟩, 5, []⟩, 10⟩, ⟨1⟩⟩ ∧
      ConstructionCombine u ⟨⟨⟨7, 3, 21000, ⟨2⟩, 5, []⟩, 10⟩, ⟨1⟩⟩ = .ok stx ∧
      ConstructionParseSigned stx =
        .ok ⟨[ ⟨0, [], CallOpType, .good ⟨1⟩ true, -5, ETHCurrency⟩,
               ⟨1, [0], CallOpType, .good ⟨2⟩ true, 5, ETHCurrency⟩ ],
             [⟨1⟩], 7, 3, 10⟩ :=
  ⟨by decide,
    construction_signed_roundtrip ⟨1⟩ ⟨2⟩ 5 7 3 10
      ⟨⟨⟨7, 3, 21000, ⟨2⟩, 5, []⟩, 10⟩, ⟨1⟩⟩ (by decide) rfl rfl⟩

/-! ### Claim C4: batched receipt fetch lemmas -/

theorem receiptsCheckLoop_ok_iff (h : Nat) (resps : List BatchElemResult) : ∀ i,
    receiptsCheckLoop h i resps = .ok () ↔
      ∀ r ∈ resps, r.err = none ∧ ∃ x, r.receipt = some x ∧ x.blockHash = h := by
  induction resps with
  | nil => intro i; simp [receiptsCheckLoop]
  | cons r rest ih =>
    intro i
    cases hre : r.err with
    | some e => simp [receiptsCheckLoop, hre]
    | none =>
      cases hrc : r.receipt with
      | none => simp [receiptsCheckLoop, hre, hrc]
      | some x =>
        by_cases hbh : x.blockHash = h
        · simp [receiptsCheckLoop, hre, hrc, hbh, ih]
        · simp [receiptsCheckLoop, hre, hrc, hbh]

theorem receiptsCheckLoop_orphaned (h : Nat) (resps : List BatchElemResult)
    (h1 : ∀ r ∈ resps, r.err = none ∧ r.receipt.isSome)
    (h2 : ∃ r ∈ resps, ∃ x, r.receipt = some x ∧ x.blockHash ≠ h) : ∀ i,
    ∃ g, g ≠ h ∧ receiptsCheckLoop h i resps = .error (.orphaned h g) := by
  induction resps with
  | nil => simp at h2
  | cons r rest ih =>
    intro i
    obtain ⟨hre, hsome⟩ := h1 r (List.mem_cons_self _ _)
    obtain ⟨x, hrc⟩ := Option.isSome_iff_exists.mp hsome
    by_cases hbh : x.blockHash = h
    · have h2' : ∃ r ∈ rest, ∃ x, r.receipt = some x ∧ x.blockHash ≠ h := by
        obtain ⟨r', hr', x', hx', hne⟩ := h2
        rcases List.mem_cons.mp hr' with rfl | hmem
        · rw [hrc] at hx'
          cases hx'
          exact absurd hbh hne
        · exact ⟨r', hmem, x', hx', hne⟩
      obtain ⟨g, hg, hloop⟩ := ih (fun r hr => h1 r (List.mem_cons_of_mem _ hr)) h2' (i + 1)
      exact ⟨g, hg, by simp [receiptsCheckLoop, hre, hrc, hbh, hloop]⟩
    · exact ⟨x.blockHash, hbh, by simp [receiptsCheckLoop, hre, hrc, hbh]⟩

theorem filterMap_receipt_length (resps : List BatchElemResult)
    (h : ∀ r ∈ resps, r.receipt.isSome) :
    (resps.filterMap (·.receipt)).length = resps.length := by
  induction resps with
  | nil => simp
  | cons r rest ih =>
    obtain ⟨x, hx⟩ := Option.isSome_iff_exists.mp (h r (List.mem_cons_self _ _))
    simp [List.filterMap_cons, hx, ih (fun r hr => h r (List.mem_cons_of_mem _ hr))]

theorem filterMap_receipt_get (resps : List BatchElemResult)
    (h : ∀ r ∈ resps, r.receipt.isSome) : ∀ i,
    (resps.filterMap (·.receipt)).get? i = (resps.get? i).bind (·.receipt) := by
  induction resps with
  | nil => intro i; simp
  | cons r rest ih =>
    intro i
    obtain ⟨x, hx⟩ := Option.isSome_iff_exists.mp (h r (List.mem_cons_self _ _))
    cases i with
    | zero => simp [List.filterMap_cons, hx]
    | succ n =>
      have hn := ih (fun r hr => h r (List.mem_cons_of_mem _ hr)) n
      simpa [List.filterMap_cons, hx] using hn

/-- Claim C4 (amended): in a batched receipt fetch where every element
returned without error and with a receipt present, any block-hash
mismatch fails the whole call with the orphaned-block error and no
receipts; a successful call returns every receipt, in transaction order,
all matching the requested hash; the fetch never returns a partial
result.  (When an earlier element carries its own error or a missing
receipt, that error is reported instead of the orphaned-block one — see
the counterexample.) -/
theorem getBlockReceipts_atomic_orphaned (h : Nat) (resps : List BatchElemResult) :
    ((∀ r ∈ resps, r.err = none ∧ r.receipt.isSome) →
      (∃ r ∈ resps, ∃ x, r.receipt = some x ∧ x.blockHash ≠ h) →
      ∃ g, g ≠ h ∧ getBlockReceipts h resps = .error (.orphaned h g)) ∧
    (∀ res, getBlockReceipts h resps = .ok res →
      res = resps.filterMap (·.receipt) ∧
      res.length = resps.length ∧
      (∀ i, res.get? i = (resps.get? i).bind (·.receipt)) ∧
      (∀ x ∈ res, x.blockHash = h)) ∧
    ((∀ r ∈ resps, r.err = none ∧ ∃ x, r.receipt = some x ∧ x.blockHash = h) →
      getBlockReceipts h resps = .ok (resps.filterMap (·.receipt))) := by
  refine ⟨?_, ?_, ?_⟩
  · intro h1 h2
    obtain ⟨g, hg, hloop⟩ := receiptsCheckLoop_orphaned h resps h1 h2 0
    exact ⟨g, hg, by simp [getBlockReceipts, hloop]⟩
  · intro res hres
    cases hloop : receiptsCheckLoop h 0 resps with
    | error e => simp [getBlockReceipts, hloop] at hres
    | ok u =>
      cases u
      have hall := (receiptsCheckLoop_ok_iff h resps 0).mp hloop
      have hsome : ∀ r ∈ resps, r.receipt.isSome := by
        intro r hr
        obtain ⟨-, x, hx, -⟩ := hall r hr
        simp [hx]
      simp only [getBlockReceipts, hloop] at hres
      cases hres
      refine ⟨rfl, filterMap_receipt_length resps hsome, filterMap_receipt_get resps hsome, ?_⟩
      intro x hx
      obtain ⟨r, hr, hrx⟩ := List.mem_filterMap.mp hx
      obtain ⟨-, x', hx', hbh⟩ := hall r hr
      rw [hx'] at hrx
      cases hrx
      exact hbh
  · intro hall
    have hloop := (receiptsCheckLoop_ok_iff h resps 0).mpr hall
    simp [getBlockReceipts, hloop]

/-- Claim C4, counterexample: with a missing receipt at index 0 and a
mismatched receipt at index 1, the call fails with the empty-receipt
error, not the orphaned-block error, although a returned receipt's block
hash differs from the requested one. -/
theorem getBlockReceipts_orphaned_counterexample :
    getBlockReceipts 1 [⟨none, none⟩, ⟨none, some ⟨2⟩⟩] = .error (.emptyReceipt 0) ∧
    (∃ r ∈ [(⟨none, none⟩ : BatchElemResult), ⟨none, some ⟨2⟩⟩],
      ∃ x, r.receipt = some x ∧ x.blockHash ≠ 1) ∧
    ¬ ∃ e g, getBlockReceipts 1 [⟨none, none⟩, ⟨none, some ⟨2⟩⟩] =
        .error (.orphaned e g) := by
  refine ⟨rfl, ⟨⟨none, some ⟨2⟩⟩, by decide, ⟨2⟩, rfl, by decide⟩, ?_⟩
  intro ⟨e, g, hc⟩
  rw [show getBlockReceipts 1 [⟨none, none⟩, ⟨none, some ⟨2⟩⟩] =
      .error (.emptyReceipt 0) from rfl] at hc
  exact ReceiptsErr.noConfusion (Except.error.inj hc)

/-- Witness for C4: a clean batch with one mismatched receipt fails
orphaned; a clean matching batch returns its receipts. -/
theorem getBlockReceipts_atomic_orphaned_witness :
    (∃ g, g ≠ 1 ∧
      getBlockReceipts 1 [⟨none, some ⟨2⟩⟩] = .error (.orphaned 1 g)) ∧
    getBlockReceipts 1 [⟨none, some ⟨1⟩⟩] =
      .ok ([(⟨none, some ⟨1⟩⟩ : BatchElemResult)].filterMap (·.receipt)) :=
  ⟨(getBlockReceipts_atomic_orphaned 1 [⟨none, some ⟨2⟩⟩]).1 (by decide)
      ⟨⟨none, some ⟨2⟩⟩, by decide, ⟨2⟩, rfl, by decide⟩,
   (getBlockReceipts_atomic_orphaned 1 [⟨none, some ⟨1⟩⟩]).2.2 (by
      intro r hr
      simp at hr
      subst hr
      exact ⟨rfl, ⟨1⟩, rfl, rfl⟩)⟩

/-! ### Claim C5: destroyed-account finalization -/

theorem destructLoop_neg (entries : DMap) : ∀ ops : List Operation,
    (∃ e ∈ entries, e.2 < 0) → destructLoop ops entries = none := by
  induction entries with
  | nil => intro ops h; simp at h
  | cons e rest ih =>
    intro ops h
    obtain ⟨a, v⟩ := e
    by_cases hz : v = 0
    · have h' : ∃ e ∈ rest, e.2 < 0 := by
        obtain ⟨e', he', hneg⟩ := h
        rcases List.mem_cons.mp he' with rfl | hmem
        · simp at hneg; omega
        · exact ⟨e', hmem, hneg⟩
      simp [destructLoop, hz, ih ops h']
    · by_cases hn : v < 0
      · simp [destructLoop, hz, hn]
      · have h' : ∃ e ∈ rest, e.2 < 0 := by
          obtain ⟨e', he', hneg⟩ := h
          rcases List.mem_cons.mp he' with rfl | hmem
          · simp at hneg; omega
          · exact ⟨e', hmem, hneg⟩
        simp [destructLoop, hz, hn, ih _ h']

theorem destructLoop_nonneg (entries : DMap) : ∀ ops : List Operation,
    (∀ e ∈ entries, 0 ≤ e.2) →
    ∃ ds, destructLoop ops entries = some (ops ++ ds) ∧
      ds.map (fun op => (op.account, op.opType, op.status, op.amount, op.related, op.metaErr)) =
        (entries.filter (fun e => e.2 ≠ 0)).map
          (fun e => (e.1, DestructOpType, some SuccessStatus, some (-e.2),
            ([] : List Int), (none : Option String))) := by
  induction entries with
  | nil => intro ops h; exact ⟨[], by simp [destructLoop], by simp⟩
  | cons e rest ih =>
    intro ops h
    obtain ⟨a, v⟩ := e
    by_cases hz : v = 0
    · obtain ⟨ds, hd, hm⟩ := ih ops (fun e he => h e (List.mem_cons_of_mem _ he))
      exact ⟨ds, by simp [destructLoop, hz, hd], by simp [hz, hm]⟩
    · have hn : ¬(v < 0) := by
        have := h (a, v) (List.mem_cons_self _ _)
        simp at this
        omega
      obtain ⟨ds, hd, hm⟩ :=
        ih (ops ++ [⟨((ops.getLast?).map (·.index)).getD (-1) + 1, [], DestructOpType,
          some SuccessStatus, a, some (-v), none⟩])
          (fun e he => h e (List.mem_cons_of_mem _ he))
      refine ⟨⟨((ops.getLast?).map (·.index)).getD (-1) + 1, [], DestructOpType,
          some SuccessStatus, a, some (-v), none⟩ :: ds, ?_, ?_⟩
      · rw [show (destructLoop ops ((a, v) :: rest)) =
            destructLoop (ops ++ [⟨((ops.getLast?).map (·.index)).getD (-1) + 1, [],
              DestructOpType, some SuccessStatus, a, some (-v), none⟩]) rest by
            simp [destructLoop, hz, hn]]
        rw [hd]
        simp
      · simp [hz, hm]

theorem countP_key_filter (a : Address) (entries : DMap) :
    (entries.map Prod.fst).Nodup →
    ∀ v : Int, dmapGet entries a = some v → v ≠ 0 →
    (entries.filter (fun e => e.2 ≠ 0)).countP (fun e => e.1 = a) = 1 := by
  induction entries with
  | nil => intro _ v hv; simp [dmapGet] at hv
  | cons e rest ih =>
    intro hnodup v hv hvne
    obtain ⟨b, w⟩ := e
    simp only [List.map_cons, List.nodup_cons] at hnodup
    by_cases hb : b = a
    · subst hb
      rw [dmapGet, List.find?_cons_of_pos _ (by simp)] at hv
      simp at hv
      subst hv
      have hrest : (rest.filter (fun e => e.2 ≠ 0)).countP (fun e => e.1 = b) = 0 := by
        rw [List.countP_eq_zero]
        intro e he
        have hmem := List.mem_of_mem_filter he
        have : e.1 ≠ b := by
          intro hcon
          exact hnodup.1 (hcon ▸ List.mem_map_of_mem Prod.fst hmem)
        simpa using this
      rw [List.filter_cons_of_pos (by simpa using hvne), List.countP_cons_of_pos _ _ (by simp)]
      omega
    · rw [dmapGet, List.find?_cons_of_neg _ (by simpa using hb)] at hv
      have hres := ih hnodup.2 v hv hvne
      by_cases hw : w = 0
      · rw [List.filter_cons_of_neg (by simpa using hw)]
        exact hres
      · rw [List.filter_cons_of_pos (by simpa using hw),
          List.countP_cons_of_neg _ _ (by simpa using hb)]
        exact hres

theorem dmapSet_keys_nodup (m : DMap) (k : Address) (v : Int)
    (h : (m.map Prod.fst).Nodup) : ((dmapSet m k v).map Prod.fst).Nodup := by
  unfold dmapSet
  split
  · have hkeys : (m.map (fun e => if e.1 = k then (k, v) else e)).map Prod.fst =
        m.map Prod.fst := by
      rw [List.map_map]
      apply List.map_congr_left
      intro e he
      by_cases hek : e.1 = k
      · simp [hek]
      · simp [hek]
    rw [hkeys]
    exact h
  · rename_i hnone
    have hknotin : k ∉ m.map Prod.fst := by
      intro hk
      obtain ⟨e, he, hek⟩ := List.mem_map.mp hk
      have : dmapGet m k = none := by
        cases hg : dmapGet m k with
        | none => rfl
        | some x => rw [hg] at hnone; simp at hnone
      rw [dmapGet] at this
      have := List.find?_eq_none.mp (by
        cases hf : m.find? (fun e => decide (e.1 = k)) with
        | none => rfl
        | some x => rw [hf] at this; simp at this) e he
      simp [hek] at this
    simp only [List.map_append, List.map_cons, List.map_nil]
    rw [List.nodup_append]
    exact ⟨h, List.nodup_singleton k, by
      intro x hx hxk
      simp at hxk
      subst hxk
      exact hknotin hx⟩

theorem dmapDel_keys_nodup (m : DMap) (k : Address)
    (h : (m.map Prod.fst).Nodup) : ((dmapDel m k).map Prod.fst).Nodup :=
  ((List.filter_sublist m).map Prod.fst).nodup h

theorem traceStep_keys_nodup (si : Int) (st : TState) (t : FlatCall)
    (h : (st.destroyed.map Prod.fst).Nodup) :
    (((traceStep si st t).destroyed).map Prod.fst).Nodup := by
  by_cases hsd : t.typ = SelfDestructOpType
  · have hc : CallType SelfDestructOpType = false := by rfl
    by_cases hft : t.From = t.To <;> by_cases hz : t.value = 0 <;>
      simp [traceStep, hsd, hft, hc, hz, Address.str_ne_empty] <;>
      (repeat (first
        | exact h
        | apply dmapSet_keys_nodup
        | apply dmapDel_keys_nodup
        | split))
  · by_cases hz : t.value = 0 <;> by_cases hc : CallType t.typ = true <;>
      by_cases hcr : CreateType t.typ = true <;>
      simp [traceStep, hsd, hz, hc, hcr, Address.str_ne_empty] <;>
      (repeat (first
        | exact h
        | apply dmapSet_keys_nodup
        | apply dmapDel_keys_nodup
        | split))

theorem traceFold_keys_nodup (si : Int) (calls : List FlatCall) :
    (((calls.foldl (traceStep si) ⟨[], []⟩).destroyed).map Prod.fst).Nodup := by
  suffices hgen : ∀ st : TState, (st.destroyed.map Prod.fst).Nodup →
      (((calls.foldl (traceStep si) st).destroyed).map Prod.fst).Nodup from
    hgen ⟨[], []⟩ (by simp)
  induction calls with
  | nil => intro st h; simpa using h
  | cons c rest ih =>
    intro st h
    exact ih (traceStep si st c) (traceStep_keys_nodup si st c h)

/-- Claim C5 (amended): at the end of `traceOps`, for every address still
carrying a non-zero destroyed-account ledger delta, exactly one synthetic
DESTRUCT operation negating that delta is appended (bringing the
accumulated ledger delta of that address to zero), and a negative final
delta aborts the computation fatally (modelled as `none`) rather than
being clamped or silently emitted.  (The sum of *all* emitted amounts for
such an address need not be zero — see the counterexample.) -/
theorem traceOps_destruct_finalization (calls : List FlatCall) (si : Int) :
    ((∀ e ∈ (calls.foldl (traceStep si) ⟨[], []⟩).destroyed, 0 ≤ e.2) →
      ∃ ds, traceOps calls si = some ((calls.foldl (traceStep si) ⟨[], []⟩).ops ++ ds) ∧
        ds.map (fun op =>
            (op.account, op.opType, op.status, op.amount, op.related, op.metaErr)) =
          (((calls.foldl (traceStep si) ⟨[], []⟩).destroyed).filter
              (fun e => e.2 ≠ 0)).map
            (fun e => (e.1, DestructOpType, some SuccessStatus, some (-e.2),
              ([] : List Int), (none : Option String))) ∧
        (∀ a v, dmapGet (calls.foldl (traceStep si) ⟨[], []⟩).destroyed a = some v →
          v ≠ 0 → ds.countP (fun op => op.account = a) = 1)) ∧
    ((∃ e ∈ (calls.foldl (traceStep si) ⟨[], []⟩).destroyed, e.2 < 0) →
      traceOps calls si = none) := by
  constructor
  · intro hpos
    obtain ⟨ds, hd, hm⟩ :=
      destructLoop_nonneg (calls.foldl (traceStep si) ⟨[], []⟩).destroyed
        (calls.foldl (traceStep si) ⟨[], []⟩).ops hpos
    refine ⟨ds, ?_, hm, ?_⟩
    · unfold traceOps
      by_cases hemp : calls.isEmpty
      · have hnil : calls = [] := List.isEmpty_iff.mp hemp
        subst hnil
        simp only [List.foldl_nil] at hd ⊢
        simp only [destructLoop] at hd
        have hds : ds = [] := by
          have h2 := Option.some.inj hd
          simpa using h2.symm
        simp [hds]
      · simp [hemp, hd]
    · intro a v hv hvne
      have hcount := countP_key_filter a (calls.foldl (traceStep si) ⟨[], []⟩).destroyed
        (traceFold_keys_nodup si calls) v hv hvne
      have h1 : ds.countP (fun op => op.account = a) =
          (ds.map (fun op =>
            (op.account, op.opType, op.status, op.amount, op.related, op.metaErr))).countP
            (fun tup => tup.1 = a) := by
        rw [List.countP_map]
        rfl
      rw [h1, hm, List.countP_map]
      exact hcount
  · intro hneg
    unfold traceOps
    by_cases hemp : calls.isEmpty
    · exfalso
      have hnil : calls = [] := List.isEmpty_iff.mp hemp
      subst hnil
      simp at hneg
    · simp [hemp,
        destructLoop_neg (calls.foldl (traceStep si) ⟨[], []⟩).destroyed
          (calls.foldl (traceStep si) ⟨[], []⟩).ops hneg]

/-- Claim C5, counterexample: address 1 self-destructs sending 3 and then
receives 7 while destroyed; it is destroyed and never resurrected
(final ledger delta 7), the synthetic DESTRUCT emits −7, and the sum of
all emitted amounts for address 1 is −3, not zero. -/
theorem traceOps_destruct_sum_counterexample :
    dmapGet (([ ⟨"SELFDESTRUCT", ⟨1⟩, ⟨2⟩, 3, none, false, ""⟩,
        ⟨"CALL", ⟨3⟩, ⟨1⟩, 7, none, false, ""⟩ ] : List FlatCall).foldl
        (traceStep 0) ⟨[], []⟩).destroyed ⟨1⟩ = some 7 ∧
    traceOps
      [ ⟨"SELFDESTRUCT", ⟨1⟩, ⟨2⟩, 3, none, false, ""⟩,
        ⟨"CALL", ⟨3⟩, ⟨1⟩, 7, none, false, ""⟩ ] 0 =
      some [ ⟨0, [], "SELFDESTRUCT", some SuccessStatus, ⟨1⟩, some (-3), none⟩,
             ⟨1, [0], "SELFDESTRUCT", some SuccessStatus, ⟨2⟩, some 3, none⟩,
             ⟨2, [], "CALL", some SuccessStatus, ⟨3⟩, some (-7), none⟩,
             ⟨3, [2], "CALL", some SuccessStatus, ⟨1⟩, some 7, none⟩,
             ⟨4, [], "DESTRUCT", some SuccessStatus, ⟨1⟩, some (-7), none⟩ ] ∧
    ([ ⟨0, [], "SELFDESTRUCT", some SuccessStatus, ⟨1⟩, some (-3), none⟩,
       ⟨1, [0], "SELFDESTRUCT", some SuccessStatus, ⟨2⟩, some 3, none⟩,
       ⟨2, [], "CALL", some SuccessStatus, ⟨3⟩, some (-7), none⟩,
       ⟨3, [2], "CALL", some SuccessStatus, ⟨1⟩, some 7, none⟩,
       ⟨4, [], "DESTRUCT", some SuccessStatus, ⟨1⟩, some (-7), none⟩ ] :
        List Operation).filterMap
      (fun op => if op.account = ⟨1⟩ then op.amount else none) = [-3, 7, -7] ∧
    (-3 + 7 + -7 : Int) = -3 ∧ (-3 : Int) ≠ 0 := by
  refine ⟨by decide, by decide, by decide, by decide, by decide⟩

/-- Witness for C5: a run whose final deltas are non-negative succeeds;
a run that drives a destroyed account's delta negative aborts. -/
theorem traceOps_destruct_finalization_witness :
    (traceOps
      [ ⟨"SELFDESTRUCT", ⟨1⟩, ⟨2⟩, 3, none, false, ""⟩,
        ⟨"CALL", ⟨3⟩, ⟨1⟩, 7, none, false, ""⟩ ] 0).isSome = true ∧
    traceOps
      [ ⟨"SELFDESTRUCT", ⟨1⟩, ⟨2⟩, 0, none, false, ""⟩,
        ⟨"CALL", ⟨1⟩, ⟨3⟩, 5, none, false, ""⟩ ] 0 = none := by
  constructor
  · obtain ⟨ds, hd, -, -⟩ :=
      (traceOps_destruct_finalization
        [ ⟨"SELFDESTRUCT", ⟨1⟩, ⟨2⟩, 3, none, false, ""⟩,
          ⟨"CALL", ⟨3⟩, ⟨1⟩, 7, none, false, ""⟩ ] 0).1 (by decide)
    rw [hd]
    rfl
  · exact (traceOps_destruct_finalization
      [ ⟨"SELFDESTRUCT", ⟨1⟩, ⟨2⟩, 0, none, false, ""⟩,
        ⟨"CALL", ⟨1⟩, ⟨3⟩, 5, none, false, ""⟩ ] 0).2 (by decide)

/-! ### Claims C6 and C7: flattening -/

theorem flattenLoop_nil_eq (r : Bool) (e : String) (cs : List Call) : ∀ res : List FlatCall,
    flattenLoop r e cs [] res =
      res ++ (cs.map (fun c => flattenTraces (propagate r e c) [])).flatten := by
  induction cs with
  | nil => intro res; simp [flattenLoop]
  | cons c rest ih =>
    intro res
    simp only [flattenLoop]
    rw [ih]
    simp

theorem flattenTraces_nil_eq (c : Call) :
    flattenTraces c [] = c.flatten ::
      ((c.calls.map (fun x =>
        flattenTraces (propagate c.revert c.errorMessage x) [])).flatten) := by
  cases c with
  | mk t f t2 v g r e cs =>
    simp only [flattenTraces]
    rw [flattenLoop_nil_eq]
    simp [Call.flatten, Call.calls, Call.revert, Call.errorMessage]

theorem Call.size_induction (P : Call → Prop)
    (h : ∀ c : Call, (∀ c' : Call, c'.size < c.size → P c') → P c) : ∀ c, P c := by
  have haux : ∀ n (c : Call), c.size ≤ n → P c := by
    intro n
    induction n with
    | zero =>
      intro c hc
      have := Call.size_pos c
      omega
    | succ n ih =>
      intro c hc
      apply h
      intro c' hc'
      exact ih c' (by omega)
  intro c
  exact haux c.size c le_rfl

theorem size_le_of_mem {c : Call} {cs : List Call} (h : c ∈ cs) : c.size ≤ sizeList cs := by
  induction cs with
  | nil => simp at h
  | cons d rest ih =>
    rcases List.mem_cons.mp h with rfl | hm
    · simp only [sizeList]
      omega
    · have := ih hm
      simp only [sizeList]
      omega

mutual

/-- Modelled from the spec: the depth-first pre-order traversal of a
call-trace tree, projecting each node to its traversal-stable fields
(type, from, to, value, gas used). -/
def preorderProjSpec : Call → List (String × Address × Address × Int × Option Int)
  | .mk t f t2 v g _ _ cs => (t, f, t2, v, g) :: preorderProjSpecL cs

/-- Pre-order traversal of a forest, children left to right. -/
def preorderProjSpecL : List Call → List (String × Address × Address × Int × Option Int)
  | [] => []
  | c :: cs => preorderProjSpec c ++ preorderProjSpecL cs

end

theorem preorderProjSpec_propagate (r : Bool) (e : String) (c : Call) :
    preorderProjSpec (propagate r e c) = preorderProjSpec c := by
  cases c with
  | mk t f t2 v g r0 e0 cs =>
    simp only [propagate]
    split <;> rfl

theorem preorderProjSpecL_eq_join (cs : List Call) :
    preorderProjSpecL cs = (cs.map preorderProjSpec).flatten := by
  induction cs with
  | nil => rfl
  | cons c rest ih => simp [preorderProjSpecL, ih]

theorem flattenTraces_map_proj : ∀ c : Call,
    (flattenTraces c []).map (fun fc => (fc.typ, fc.From, fc.To, fc.value, fc.gasUsed)) =
      preorderProjSpec c := by
  apply Call.size_induction
  intro c ih
  cases c with
  | mk t f t2 v g r e cs =>
    rw [flattenTraces_nil_eq]
    simp only [Call.flatten, Call.calls, Call.revert, Call.errorMessage, List.map_cons,
      preorderProjSpec, List.map_flatten]
    congr 1
    rw [preorderProjSpecL_eq_join]
    congr 1
    rw [List.map_map]
    apply List.map_congr_left
    intro x hx
    have hsize : (propagate r e x).size < (Call.mk t f t2 v g r e cs).size := by
      rw [propagate_size]
      have := size_le_of_mem hx
      simp only [Call.size]
      omega
    have := ih (propagate r e x) hsize
    simpa [preorderProjSpec_propagate] using this

theorem preorderProjSpec_length : ∀ c : Call, (preorderProjSpec c).length = c.size := by
  apply Call.size_induction
  intro c ih
  cases c with
  | mk t f t2 v g r e cs =>
    simp only [preorderProjSpec, List.length_cons, Call.size, preorderProjSpecL_eq_join]
    have haux : ∀ ds : List Call, (∀ x ∈ ds, x.size ≤ sizeList cs) →
        ((ds.map preorderProjSpec).flatten).length = sizeList ds := by
      intro ds
      induction ds with
      | nil => intro _; simp [sizeList]
      | cons d rest ihd =>
        intro hmem
        simp only [List.map_cons, List.flatten_cons, List.length_append, sizeList]
        rw [ihd (fun x hx => hmem x (List.mem_cons_of_mem _ hx))]
        have hd := ih d (by
          have := hmem d (List.mem_cons_self _ _)
          simp only [Call.size]
          omega)
        omega
    rw [haux cs (fun x hx => size_le_of_mem hx)]
    omega

/-- Claim C6: for every call-trace tree with N total nodes, flattenTraces
invoked with an empty accumulator produces exactly N flat entries,
ordered by depth-first pre-order traversal of the tree (witnessed by the
projection to the traversal-stable fields, which revert propagation does
not touch). -/
theorem flattenTraces_preorder (c : Call) :
    (flattenTraces c []).length = c.size ∧
    (flattenTraces c []).map (fun fc => (fc.typ, fc.From, fc.To, fc.value, fc.gasUsed)) =
      preorderProjSpec c := by
  refine ⟨?_, flattenTraces_map_proj c⟩
  have h := congrArg List.length (flattenTraces_map_proj c)
  simpa [preorderProjSpec_length] using h

mutual

/-- Modelled from the spec: the flattening of a subtree whose root is
marked reverted — every entry is reverted, and an entry whose own error
message is empty carries its nearest ancestor's effective message
(`inh` for the root). -/
def revertFlattenSpec (inh : String) : Call → List FlatCall
  | .mk t f t2 v g _ e cs =>
    ⟨t, f, t2, v, g, true, if e = "" then inh else e⟩ ::
      revertFlattenSpecL (if e = "" then inh else e) cs

/-- Forest version of `revertFlattenSpec`. -/
def revertFlattenSpecL (inh : String) : List Call → List FlatCall
  | [] => []
  | c :: cs => revertFlattenSpec inh c ++ revertFlattenSpecL inh cs

end

theorem revertFlattenSpec_propagate (e : String) (x : Call) :
    revertFlattenSpec e x =
      revertFlattenSpec (propagate true e x).errorMessage (propagate true e x) := by
  cases x with
  | mk tx fx t2x vx gx rx ex csx =>
    simp [propagate, revertFlattenSpec, Call.errorMessage]

theorem propagate_revert_true (e : String) (x : Call) :
    (propagate true e x).revert = true := by
  cases x with
  | mk tx fx t2x vx gx rx ex csx => simp [propagate, Call.revert]

theorem flattenTraces_revert_spec : ∀ c : Call, c.revert = true →
    flattenTraces c [] = revertFlattenSpec c.errorMessage c := by
  apply Call.size_induction
  intro c ih hr
  cases c with
  | mk t f t2 v g r e cs =>
    have hr' : r = true := by simpa [Call.revert] using hr
    subst hr'
    rw [flattenTraces_nil_eq]
    simp only [Call.flatten, Call.calls, Call.revert, Call.errorMessage,
      revertFlattenSpec, ite_self]
    congr 1
    have haux : ∀ ds : List Call, (∀ x ∈ ds, x.size ≤ sizeList cs) →
        (ds.map (fun x => flattenTraces (propagate true e x) [])).flatten =
          revertFlattenSpecL e ds := by
      intro ds
      induction ds with
      | nil => intro _; simp [revertFlattenSpecL]
      | cons d rest ihd =>
        intro hmem
        simp only [List.map_cons, List.flatten_cons, revertFlattenSpecL]
        rw [ihd (fun x hx => hmem x (List.mem_cons_of_mem _ hx))]
        have hsize : (propagate true e d).size < (Call.mk t f t2 v g true e cs).size := by
          rw [propagate_size]
          have := hmem d (List.mem_cons_self _ _)
          simp only [Call.size]
          omega
        rw [ih (propagate true e d) hsize (propagate_revert_true e d),
          ← revertFlattenSpec_propagate]
    exact haux cs (fun x hx => size_le_of_mem hx)

theorem mem_revertFlattenSpec_revert : ∀ c : Call, ∀ inh (fc : FlatCall),
    fc ∈ revertFlattenSpec inh c → fc.revert = true := by
  apply Call.size_induction
  intro c ih inh fc hfc
  cases c with
  | mk t f t2 v g r e cs =>
    simp only [revertFlattenSpec] at hfc
    rcases List.mem_cons.mp hfc with rfl | hmem
    · rfl
    · have haux : ∀ ds : List Call, (∀ x ∈ ds, x.size ≤ sizeList cs) → ∀ inh2,
          fc ∈ revertFlattenSpecL inh2 ds → fc.revert = true := by
        intro ds
        induction ds with
        | nil =>
          intro _ inh2 h2
          simp [revertFlattenSpecL] at h2
        | cons d rest ihd =>
          intro hmem2 inh2 h2
          simp only [revertFlattenSpecL, List.mem_append] at h2
          rcases h2 with h2 | h2
          · exact ih d (by
              have := hmem2 d (List.mem_cons_self _ _)
              simp only [Call.size]
              omega) inh2 fc h2
          · exact ihd (fun x hx => hmem2 x (List.mem_cons_of_mem _ hx)) inh2 h2
      exact haux cs (fun x hx => size_le_of_mem hx) _ hmem

theorem revertFlattenSpec_inh_root (c : Call) :
    revertFlattenSpec "" c = revertFlattenSpec c.errorMessage c := by
  cases c with
  | mk t f t2 v g r e cs =>
    by_cases he : e = "" <;> simp [revertFlattenSpec, Call.errorMessage, he]

theorem stepChunk_revert_failure (si : Int) (st : TState) (fc : FlatCall)
    (h : fc.revert = true) :
    ∀ op ∈ stepChunk si st fc,
      op.status = some FailureStatus ∧ op.metaErr = some fc.errorMessage := by
  intro op hop
  rcases stepChunk_shapes si st fc with hs | hs | hs
  · rw [hs] at hop
    simp at hop
  · rw [hs] at hop
    simp only [List.mem_singleton] at hop
    subst hop
    simp [traceOpAt, h]
  · rw [hs] at hop
    simp only [List.mem_cons, List.not_mem_nil, or_false] at hop
    rcases hop with rfl | rfl <;> simp [traceOpAt, h]

/-- Claim C7: if a call-trace node is marked reverted, then after
flattening every entry of its subtree is marked reverted — so every
operation synthesized for any of them has FAILURE status with an error
metadata entry — and every entry whose own error message is empty
carries its nearest ancestor's effective error message, as captured by
the spec-side `revertFlattenSpec` traversal. -/
theorem flattenTraces_revert_propagation (c : Call) (h : c.revert = true) :
    flattenTraces c [] = revertFlattenSpec "" c ∧
    (∀ fc ∈ flattenTraces c [], fc.revert = true) ∧
    (∀ fc ∈ flattenTraces c [], ∀ (si : Int) (st : TState),
      ∀ op ∈ stepChunk si st fc,
        op.status = some FailureStatus ∧ op.metaErr = some fc.errorMessage) := by
  have heq : flattenTraces c [] = revertFlattenSpec "" c := by
    rw [revertFlattenSpec_inh_root]
    exact flattenTraces_revert_spec c h
  have hrev : ∀ fc ∈ flattenTraces c [], fc.revert = true := by
    intro fc hfc
    rw [heq] at hfc
    exact mem_revertFlattenSpec_revert c "" fc hfc
  exact ⟨heq, hrev, fun fc hfc si st => stepChunk_revert_failure si st fc (hrev fc hfc)⟩

/-- Witness for C7 at a concrete two-node reverted tree: the child
inherits the revert flag and the parent's error message. -/
theorem flattenTraces_revert_propagation_witness :
    (Call.mk "CALL" ⟨1⟩ ⟨2⟩ 5 none true "boom"
      [Call.mk "CALL" ⟨2⟩ ⟨3⟩ 1 none false "" []]).revert = true ∧
    flattenTraces
      (Call.mk "CALL" ⟨1⟩ ⟨2⟩ 5 none true "boom"
        [Call.mk "CALL" ⟨2⟩ ⟨3⟩ 1 none false "" []]) [] =
      revertFlattenSpec ""
        (Call.mk "CALL" ⟨1⟩ ⟨2⟩ 5 none true "boom"
          [Call.mk "CALL" ⟨2⟩ ⟨3⟩ 1 none false "" []]) :=
  ⟨rfl, (flattenTraces_revert_propagation
    (Call.mk "CALL" ⟨1⟩ ⟨2⟩ 5 none true "boom"
      [Call.mk "CALL" ⟨2⟩ ⟨3⟩ 1 none false "" []]) rfl).1⟩

/-- Witness for C9 at a concrete RPC failure. -/
theorem transaction_nil_receipt_deref_witness :
    transactionReceipt none (some "boom") = (none, some "boom") ∧
    transactionReceiptCheck (none, some "boom") 5 = .nilPanic ∧
    transactionReceiptCheck (none, some "boom") 5 ≠ .receiptErr "boom" :=
  transaction_nil_receipt_deref "boom" 5

end Mesh
